import Mathlib

/-!
Verification development for the ob-mr-viewer plugin (src/MRViewerView.ts).

The definitions below are a shallow embedding of the synchronization and
playback core of `MRViewerView`: series detection and construction
(`detectSeriesFromFileName`, `processSeriesFiles`), the position index
(`createPositionMap`), the image cache (`preloadImage`, `switchImage`
retries), frame navigation (`showFrame`, `showNextFrame`,
`showPreviousFrame`, `updateSeriesFrame`), the playback loop
(`startPlayback`), the wheel handler (`handleWheelScroll`), and an event
level model of the whole view (`SimState` / `simStep`).

JS numbers that only ever hold integers are modelled as `Int` (array
indices, positions, millisecond times, wheel deltas); the playback clock,
which divides 1000 by the rate, is modelled as `ℚ`.  JS objects used as
maps are modelled as insertion-ordered association lists.
-/

/-! ### Basic string helpers (substring and digit-run matching) -/

/-- Does `l` start with `p`?  Used to model JS regex literal matching. -/
def strStartsWith : List Char → List Char → Bool
  | _, [] => true
  | [], _ :: _ => false
  | c :: cs, p :: ps => (c = p) && strStartsWith cs ps

/-- Does `l` contain `p` as a contiguous substring? -/
def strHasSub : List Char → List Char → Bool
  | [], p => p.isEmpty
  | c :: cs, p => strStartsWith (c :: cs) p || strHasSub cs p

/-- Case-insensitive substring test: models a `/LIT/i` JS regex whose
pattern is a plain literal. -/
def containsCI (hay pat : String) : Bool :=
  strHasSub (hay.data.map Char.toUpper) (pat.data.map Char.toUpper)

/-- Numeric value of a digit string, as JS `parseInt` computes it for an
all-digit match (leading zeros allowed). -/
def parseDigits (l : List Char) : Nat :=
  l.foldl (fun a c => a * 10 + (c.toNat - 48)) 0

/-- Models `fileName.match(/(\d+)(?!.*\d)/)` followed by `parseInt`:
the value of the last maximal run of digits in the name, `0` if the name
has no digit (the code uses `match ? parseInt(match[1]) : 0`). -/
def extractFrameNumber (s : String) : Int :=
  let rev := s.data.reverse
  let digitsRev := (rev.dropWhile (fun c => !c.isDigit)).takeWhile Char.isDigit
  if digitsRev.isEmpty then 0 else (parseDigits digitsRev.reverse : Int)

/-- One alternative of the `(SER|Seq|Series)[_\s]*(\d+)` pattern tried at
the head of `cs`: literal prefix (case-insensitive), then any run of
underscores / whitespace, then at least one digit; returns the digit run's
value. -/
def matchSerAlt (pat : String) (cs : List Char) : Option Nat :=
  if strStartsWith (cs.map Char.toUpper) pat.data then
    let rest := cs.drop pat.length
    let rest' := rest.dropWhile (fun c => c = '_' || c.isWhitespace)
    let digits := rest'.takeWhile Char.isDigit
    if digits.isEmpty then none else some (parseDigits digits)
  else none

/-- Try the three alternatives in the JS alternation order at one start
position. -/
def matchSerAt (cs : List Char) : Option Nat :=
  (matchSerAlt "SER" cs).orElse fun _ =>
    (matchSerAlt "SEQ" cs).orElse fun _ => matchSerAlt "SERIES" cs

/-- Leftmost match of `(SER|Seq|Series)[_\s]*(\d+)` in the name. -/
def findSerNum : List Char → Option Nat
  | [] => none
  | c :: cs =>
    match matchSerAt (c :: cs) with
    | some n => some n
    | none => findSerNum cs

/-! ### SeriesCatalog: `detectSeriesFromFileName` and `processSeriesFiles` -/

/-- Models `detectSeriesFromFileName`: ordered, first-match-wins
classification of a filename into a series name and number.  The
`/T1|T1_|_T1/i` style alternations reduce to a case-insensitive substring
test on the first alternative. -/
def detectSeriesFromFileName (fileName : String) : String × Int :=
  if containsCI fileName "T1" then ("T1加权像 (T1WI)", 1)
  else if containsCI fileName "T2" then ("T2加权像 (T2WI)", 2)
  else if containsCI fileName "FLAIR" then ("FLAIR序列", 3)
  else if containsCI fileName "DWI" then ("弥散加权像 (DWI)", 4)
  else if containsCI fileName "SWI" then ("磁敏感加权成像 (SWI)", 5)
  else if containsCI fileName "ADC" then ("ADC图", 6)
  else
    match findSerNum fileName.data with
    | some n => ("序列 " ++ toString n, (n : Int))
    | none => ("未知序列", 999)

/-- One frame of a series (`SeriesFrame` in the source, without the DOM
`File`/`url` handles, which the core logic only passes through). -/
structure SeriesFrame where
  name : String
  frameNumber : Int
  position : Int
deriving DecidableEq

/-- A series (`SeriesData` in the source). -/
structure SeriesData where
  name : String
  frames : List SeriesFrame
  sliceThickness : Int
  sliceSpacing : Int
  positions : List Int
deriving DecidableEq

/-- Stable insertion (by frame number) used to model the JS stable sort
`framesWithNumbers.sort((a, b) => a.frameNumber - b.frameNumber)`. -/
def insByNum (x : String × Int) : List (String × Int) → List (String × Int)
  | [] => [x]
  | y :: ys => if x.2 ≤ y.2 then x :: y :: ys else y :: insByNum x ys

/-- Stable ascending sort by extracted frame number. -/
def sortByNum (l : List (String × Int)) : List (String × Int) :=
  l.foldr insByNum []

/-- Models `processSeriesFiles`: extract frame numbers, sort ascending,
and assign `position = index * 5` (the hard-coded 5mm spacing) in sorted
order. -/
def processSeriesFiles (seriesName : String) (files : List String) : SeriesData :=
  let withNums := files.map (fun f => (f, extractFrameNumber f))
  let sorted := sortByNum withNums
  let frames := sorted.enum.map
    (fun q => SeriesFrame.mk q.2.1 q.2.2 ((q.1 : Int) * 5))
  { name := seriesName
    frames := frames
    sliceThickness := 5
    sliceSpacing := 5
    positions := frames.map (fun f => f.position) }

/-! ### Association-list models of JS objects -/

/-- First-match lookup in an insertion-ordered association list (JS
object property read; JS objects cannot hold duplicate keys, so the first
match is the only one). -/
def assocFind {β : Type} : List (String × β) → String → Option β
  | [], _ => none
  | (k, v) :: t, key => if k = key then some v else assocFind t key

/-- JS object property write: overwrite in place if the key exists
(keeping its position), else append. -/
def assocSet {β : Type} : List (String × β) → String → β → List (String × β)
  | [], key, v => [(key, v)]
  | (k, w) :: t, key, v =>
    if k = key then (key, v) :: t else (k, w) :: assocSet t key v

/-- Append `f` to the group of `key`, creating the group at the end if it
does not exist (models `seriesGroups[name].push(file)`). -/
def groupAdd : List (String × List String) → String → String → List (String × List String)
  | [], key, f => [(key, [f])]
  | (k, fs) :: t, key, f =>
    if k = key then (key, fs ++ [f]) :: t else (k, fs) :: groupAdd t key f

/-- Models the grouping loop of `handleFileSelect`: group files by
detected series name, in first-appearance order. -/
def groupFiles (files : List String) : List (String × List String) :=
  files.foldl (fun g f => groupAdd g (detectSeriesFromFileName f).1 f) []

/-! ### PositionIndex: `createPositionMap` -/

/-- First-match lookup in an `Int`-keyed table. -/
def tblFind : List (Int × Nat) → Int → Option Nat
  | [], _ => none
  | (k, v) :: t, key => if k = key then some v else tblFind t key

/-- Models the loop `for i: map[positions[i]] = i` of `createPositionMap`:
writes are prepended, so a `tblFind` (first match) returns the LAST write,
exactly the JS override semantics. -/
def buildTable (positions : List Int) : List (Int × Nat) :=
  positions.enum.foldl (fun t q => (q.2, q.1) :: t) []

/-- The last index of `p` in `l` (what the last-write-wins table stores). -/
def lastIdxOf : List Int → Int → Option Nat
  | [], _ => none
  | x :: xs, p =>
    match lastIdxOf xs p with
    | some i => some (i + 1)
    | none => if x = p then some 0 else none

/-- Set-style deduplication in first-appearance order, as iterating a JS
`Set` does. -/
def dedupFirst (l : List Int) : List Int :=
  l.foldl (fun acc x => if x ∈ acc then acc else acc ++ [x]) []

/-- Sorted insertion for the ascending numeric sort `(a, b) => a - b`. -/
def insSorted (x : Int) : List Int → List Int
  | [] => [x]
  | y :: ys => if x ≤ y then x :: y :: ys else y :: insSorted x ys

/-- Ascending sort of the deduplicated position list. -/
def sortInt (l : List Int) : List Int :=
  l.foldr insSorted []

/-- The position index (`positionMap` field in the source):
`positions` is the global deduplicated sorted position list, `perSeries`
maps a series name to its position → frame-index table. -/
structure PositionMap where
  positions : List Int
  perSeries : List (String × List (Int × Nat))
deriving DecidableEq

/-- Models the `allPositions.push(...series.positions)` loop. -/
def allPositionsOf (sd : List (String × SeriesData)) : List Int :=
  sd.foldl (fun acc e => acc ++ e.2.positions) []

/-- Models `createPositionMap`: dedup + sort all positions, and build the
per-series last-write-wins tables. -/
def createPositionMap (sd : List (String × SeriesData)) : PositionMap :=
  { positions := sortInt (dedupFirst (allPositionsOf sd))
    perSeries := sd.map (fun e => (e.1, buildTable e.2.positions)) }

/-! ### ViewerBinding and navigation -/

/-- Per-series viewer state (the `currentFrame` / `currentPosition`
fields of `ViewerData`; the DOM elements and the double-buffer slot index
are outside the navigation logic modelled here). -/
structure VState where
  currentFrame : Int
  currentPosition : Int
deriving DecidableEq

/-- The sync key: `this.syncMode`, either frame ordinal or position. -/
inductive SyncMode
  | frame
  | position
deriving DecidableEq

/-- JS array read `l[i]`: `undefined` (here `none`) when out of range or
negative. -/
def getAt {α : Type} (l : List α) (i : Int) : Option α :=
  if 0 ≤ i then l.get? i.toNat else none

/-- The per-series table read `this.positionMap[seriesName]`.  A missing
entry would throw in JS; the claims below only evaluate it where the
entry exists, so a missing entry is modelled as the empty table. -/
def seriesTable (pm : PositionMap) (name : String) : List (Int × Nat) :=
  (assocFind pm.perSeries name).getD []

/-- The display-frame resolution of `updateSeriesFrame` when sync is
enabled: position mode reads `positionMap[series][positions[i]] || 0`
(fallback 0 on a miss, and `positions[i]` out of range also yields 0);
frame mode takes `min(frameIndex, frames.length - 1)`. -/
def displayOf (pm : PositionMap) (sm : SyncMode) (name : String)
    (s : SeriesData) (i : Int) : Int :=
  if sm = SyncMode.position then
    match getAt pm.positions i with
    | none => 0
    | some p => ((tblFind (seriesTable pm name) p).getD 0 : Int)
  else min i ((s.frames.length : Int) - 1)

/-- Models `updateSeriesFrame(seriesName, frameIndex, forceUpdate)`.
Returns the new viewer state and whether a buffer transition fired.
A resolution equal to the displayed frame is skipped unless forced; the
unsynced branch resolves without change unless forced. -/
def updateSeriesFrame (sd : List (String × SeriesData)) (pm : PositionMap)
    (syncEnabled : Bool) (sm : SyncMode) (name : String) (v : VState)
    (i : Int) (force : Bool) : VState × Bool :=
  match assocFind sd name with
  | none => (v, false)
  | some s =>
    let d? : Option Int :=
      if syncEnabled then some (displayOf pm sm name s i)
      else if force then some (min i ((s.frames.length : Int) - 1))
      else none
    match d? with
    | none => (v, false)
    | some d =>
      if force = false ∧ v.currentFrame = d then (v, false)
      else (⟨d, (getAt s.positions d).getD 0⟩, true)

/-- The clamp/wrap applied to the global index at the top of
`showFrame(frameIndex, allowLoop)`. -/
def clampFrameIndex (allowLoop : Bool) (m i : Int) : Int :=
  if allowLoop then
    if i < 0 then m - 1 else if m ≤ i then 0 else i
  else max 0 (min i (m - 1))

/-- New global index computed by the synced branch of `showNextFrame`. -/
def showNextIndex (allowLoop : Bool) (m cur : Int) : Int :=
  if allowLoop then (if m ≤ cur + 1 then 0 else cur + 1)
  else min (m - 1) (cur + 1)

/-- New global index computed by the synced branch of
`showPreviousFrame`. -/
def showPrevIndex (allowLoop : Bool) (m cur : Int) : Int :=
  if allowLoop then (if cur - 1 < 0 then m - 1 else cur - 1)
  else max 0 (cur - 1)

/-- Global index after a synced `showNextFrame` completes: the synced
branch computes `showNextIndex` and then `showFrame` clamps it again. -/
def syncedNextFrameIndex (allowLoop : Bool) (m cur : Int) : Int :=
  clampFrameIndex allowLoop m (showNextIndex allowLoop m cur)

/-- Global index after a synced `showPreviousFrame` completes. -/
def syncedPrevFrameIndex (allowLoop : Bool) (m cur : Int) : Int :=
  clampFrameIndex allowLoop m (showPrevIndex allowLoop m cur)

/-- Number of transitions fired by a list of binding updates. -/
def countFired (l : List (String × VState × Bool)) : Nat :=
  (l.map (fun e => if e.2.2 then 1 else 0)).sum

/-- Models `showFrame(frameIndex, allowLoop, targetSeries)` over the
bound viewers: clamp the index, then update every binding when sync is
on, only the (forced) target binding when sync is off, nothing when sync
is off and no target is named.  Returns the new global index, the new
viewer states and the number of transitions fired. -/
def showFrameRun (sd : List (String × SeriesData)) (pm : PositionMap)
    (syncEnabled : Bool) (sm : SyncMode) (viewers : List (String × VState))
    (frameIndex : Int) (allowLoop : Bool) (target : Option String) :
    Int × List (String × VState) × Nat :=
  let m : Int := (pm.positions.length : Int)
  let idx := clampFrameIndex allowLoop m frameIndex
  if syncEnabled then
    let res := viewers.map
      (fun e => (e.1, updateSeriesFrame sd pm true sm e.1 e.2 idx false))
    (idx, res.map (fun e => (e.1, e.2.1)), countFired res)
  else
    match target with
    | some t =>
      let res := viewers.map (fun e =>
        if e.1 = t then (e.1, updateSeriesFrame sd pm false sm e.1 e.2 idx true)
        else (e.1, (e.2, false)))
      (idx, res.map (fun e => (e.1, e.2.1)), countFired res)
    | none => (idx, viewers, 0)

/-! ### ImageCache: `preloadImage` and the `switchImage` retry loop -/

/-- Outcome of one image load attempt: load + decode succeed, load
succeeds but `decode()` rejects, or the load itself errors. -/
inductive LoadOutcome
  | decodeOk
  | decodeFail
  | loadError
deriving DecidableEq

/-- Outcome of the `preloadImage` promise. -/
inductive PromiseResult
  | resolvedP
  | rejectedP
deriving DecidableEq

/-- `imageCache[url] && imageCache[url].complete`: the cache maps a url
to the `complete` flag of the stored image handle. -/
def cacheComplete (c : List (String × Bool)) (url : String) : Bool :=
  match assocFind c url with
  | some b => b
  | none => false

/-- Models `preloadImage(url)` for a given load outcome: resolve at once
if the url is cached complete; on load success store the handle (also on
decode failure — its `complete` flag is true once `onload` fired) and
resolve; on load error resolve without storing.  The executor never calls
a reject function. -/
def preloadImage (c : List (String × Bool)) (url : String)
    (o : LoadOutcome) : List (String × Bool) × PromiseResult :=
  if cacheComplete c url then (c, PromiseResult.resolvedP)
  else
    match o with
    | LoadOutcome.decodeOk => ((url, true) :: c, PromiseResult.resolvedP)
    | LoadOutcome.decodeFail => ((url, true) :: c, PromiseResult.resolvedP)
    | LoadOutcome.loadError => (c, PromiseResult.resolvedP)

/-- The readiness test at the top of `switchImage`. -/
def switchReady (c : List (String × Bool)) (url : String) : Bool :=
  cacheComplete c url

/-- Cache contents after `n` rounds of the `switchImage` retry loop:
each round, if the url is ready the swap proceeds (cache untouched),
otherwise `preloadImage` runs with that attempt's outcome and
`switchImage` is retried. -/
def switchCacheAt (c0 : List (String × Bool)) (url : String)
    (outs : Nat → LoadOutcome) : Nat → List (String × Bool)
  | 0 => c0
  | n + 1 =>
    if switchReady (switchCacheAt c0 url outs n) url then
      switchCacheAt c0 url outs n
    else (preloadImage (switchCacheAt c0 url outs n) url (outs n)).1

/-- The retry loop has performed its buffer swap by round `n` iff the url
is ready then. -/
def switchDone (c0 : List (String × Bool)) (url : String)
    (outs : Nat → LoadOutcome) (n : Nat) : Bool :=
  switchReady (switchCacheAt c0 url outs n) url

/-! ### PlaybackScheduler: `startPlayback` -/

/-- JS `a % b` for the nonnegative reals that arise in the playback loop
(`elapsed % delay` with `elapsed ≥ delay > 0`). -/
def qmod (a b : ℚ) : ℚ := a - b * (⌊a / b⌋ : ℤ)

/-- The playback loop's persistent state: `lastTime` and the number of
frame advances issued so far. -/
structure PlayState where
  lastTime : ℚ
  advances : Nat
deriving DecidableEq

/-- One `framePlayback(time)` iteration: once `elapsed ≥ delay`, set
`lastTime = time - (elapsed % delay)` and advance exactly one frame. -/
def playStep (delay : ℚ) (st : PlayState) (t : ℚ) : PlayState :=
  if delay ≤ t - st.lastTime then
    { lastTime := t - qmod (t - st.lastTime) delay, advances := st.advances + 1 }
  else st

/-- Run the playback loop over a list of animation-frame timestamps,
starting from `lastTime = t0` and zero advances. -/
def playRun (delay t0 : ℚ) (ticks : List ℚ) : PlayState :=
  ticks.foldl (playStep delay) { lastTime := t0, advances := 0 }

/-- "No missed ticks": at every iteration the timestamp is at or after
`lastTime` and the elapsed time is below two intervals, so each firing
owes exactly one frame. -/
def ticksOkB (delay : ℚ) : PlayState → List ℚ → Bool
  | _, [] => true
  | st, t :: ts =>
    (decide (st.lastTime ≤ t) && decide (t - st.lastTime < 2 * delay))
      && ticksOkB delay (playStep delay st t) ts

/-! ### Wheel-step accumulator: `handleWheelScroll` -/

/-- The navigation direction a wheel event can issue. -/
inductive NavDir
  | nextDir
  | prevDir
deriving DecidableEq

/-- The shared wheel throttle state: one `lastWheelTime` / `wheelDelta`
pair on the whole view. -/
structure WheelState where
  lastWheelTime : Int
  wheelDelta : Int
deriving DecidableEq

/-- Models `handleWheelScroll(event, seriesName)`: drop the event if it
arrives less than 30ms after the last accepted one; otherwise accumulate
`deltaY`, and once `|wheelDelta| > 30` issue one navigation toward the
series under the pointer and reset the accumulator to zero. -/
def handleWheelScroll (st : WheelState) (now deltaY : Int)
    (seriesName : String) : WheelState × Option (NavDir × String) :=
  if now - st.lastWheelTime < 30 then (st, none)
  else
    let d := st.wheelDelta + deltaY
    if 30 < |d| then
      (⟨now, 0⟩,
        some (if 0 < d then (NavDir.nextDir, seriesName)
              else (NavDir.prevDir, seriesName)))
    else (⟨now, d⟩, none)

/-! ### Catalog state: `handleFileSelect` and `loadFile` -/

/-- The series data together with the position index, the two fields of
the view that describe the loaded catalog. -/
structure CatalogState where
  seriesData : List (String × SeriesData)
  positionMap : PositionMap
deriving DecidableEq

/-- Models `handleFileSelect` on the catalog: an empty selection returns
early; otherwise the series data is cleared (the position map is NOT
cleared), each detected group is processed in turn, and
`createPositionMap` runs after each group over the data accumulated so
far. -/
def handleFileSelectCatalog (st : CatalogState) (files : List String) :
    CatalogState :=
  if files.isEmpty then st
  else
    (groupFiles files).foldl
      (fun acc g =>
        let sd := assocSet acc.seriesData g.1 (processSeriesFiles g.1 g.2)
        { seriesData := sd, positionMap := createPositionMap sd })
      { seriesData := [], positionMap := st.positionMap }

/-- Models `loadFile(file)`: build a singleton series (one frame,
`frameNumber = 0`, `position = 0`) under the detected name and store it.
`createPositionMap` is NOT called on this path, so the position map keeps
its previous contents. -/
def loadFileCatalog (st : CatalogState) (fileName : String) : CatalogState :=
  let seriesName := (detectSeriesFromFileName fileName).1
  let s : SeriesData :=
    { name := seriesName
      frames := [⟨fileName, 0, 0⟩]
      sliceThickness := 5
      sliceSpacing := 5
      positions := [0] }
  { seriesData := assocSet st.seriesData seriesName s
    positionMap := st.positionMap }

/-! ### Event-level model of the view (`SimState`, `simStep`) -/

/-- `Math.min(...)` over a list: `none` models `Infinity` on an empty
argument list. -/
def jsMinList : List Int → Option Int
  | [] => none
  | x :: xs => some (xs.foldl min x)

/-- First digit run of a string, `999` if the string has no digit
(models `parseInt(name.match(/\d+/)?.[0] || '999')` in
`createSeriesViewers`). -/
def firstNumOf (s : String) : Int :=
  let digits := (s.data.dropWhile (fun c => !c.isDigit)).takeWhile Char.isDigit
  if digits.isEmpty then 999 else (parseDigits digits : Int)

/-- Stable insertion by the series sort key of `createSeriesViewers`. -/
def insBySeriesNum (x : String × SeriesData) :
    List (String × SeriesData) → List (String × SeriesData)
  | [] => [x]
  | y :: ys =>
    if firstNumOf x.2.name ≤ firstNumOf y.2.name then x :: y :: ys
    else y :: insBySeriesNum x ys

/-- Models `createSeriesViewers`: one fresh viewer (frame 0, position 0)
per series, in the sorted series order. -/
def makeViewers (sd : List (String × SeriesData)) : List (String × VState) :=
  (sd.foldr insBySeriesNum []).map (fun e => (e.1, ⟨0, 0⟩))

/-- The mutable fields of `MRViewerView` that the synchronization logic
reads or writes (DOM handles, the image cache and the playback timer are
modelled separately). -/
structure SimState where
  seriesData : List (String × SeriesData)
  positionMap : PositionMap
  viewers : List (String × VState)
  currentFrameIndex : Int
  syncEnabled : Bool
  syncMode : SyncMode
  activeSeries : Option String
  lastWheelTime : Int
  wheelDelta : Int
deriving DecidableEq

/-- Apply `showFrame(i, allowLoop, target)` to the view state. -/
def applyShowFrame (st : SimState) (i : Int) (allowLoop : Bool)
    (target : Option String) : SimState :=
  let r := showFrameRun st.seriesData st.positionMap st.syncEnabled
    st.syncMode st.viewers i allowLoop target
  { st with currentFrameIndex := r.1, viewers := r.2.1 }

/-- Replace the state of one bound viewer. -/
def updateViewer (viewers : List (String × VState)) (t : String)
    (v : VState) : List (String × VState) :=
  viewers.map (fun e => if e.1 = t then (e.1, v) else e)

/-- Models `showNextFrame(allowLoop, targetSeries)`: the synced branch
steps the global index and runs `showFrame`; the unsynced branch steps
the target's own frame counter over that series' own length, stores it
into the global index and forces an update of that binding only. -/
def simNext (st : SimState) (allowLoop : Bool) (tgt : Option String) :
    SimState :=
  if st.syncEnabled then
    let m : Int := (st.positionMap.positions.length : Int)
    applyShowFrame st (showNextIndex allowLoop m st.currentFrameIndex)
      allowLoop none
  else
    match tgt with
    | none => st
    | some t =>
      match assocFind st.viewers t, assocFind st.seriesData t with
      | some v, some s =>
        let len : Int := (s.frames.length : Int)
        let n0 := v.currentFrame + 1
        let n := if allowLoop then (if len ≤ n0 then 0 else n0)
                 else min (len - 1) n0
        let r := updateSeriesFrame st.seriesData st.positionMap false
          st.syncMode t v n true
        { st with currentFrameIndex := n,
                  viewers := updateViewer st.viewers t r.1 }
      | _, _ => st

/-- Models `showPreviousFrame(allowLoop, targetSeries)`. -/
def simPrev (st : SimState) (allowLoop : Bool) (tgt : Option String) :
    SimState :=
  if st.syncEnabled then
    let m : Int := (st.positionMap.positions.length : Int)
    applyShowFrame st (showPrevIndex allowLoop m st.currentFrameIndex)
      allowLoop none
  else
    match tgt with
    | none => st
    | some t =>
      match assocFind st.viewers t, assocFind st.seriesData t with
      | some v, some s =>
        let len : Int := (s.frames.length : Int)
        let n0 := v.currentFrame - 1
        let n := if allowLoop then (if n0 < 0 then len - 1 else n0)
                 else max 0 n0
        let r := updateSeriesFrame st.seriesData st.positionMap false
          st.syncMode t v n true
        { st with currentFrameIndex := n,
                  viewers := updateViewer st.viewers t r.1 }
      | _, _ => st

/-- The external events that reach the synchronization logic. -/
inductive SimEv
  | selectFiles (files : List String)
  | openFile (name : String)
  | setSyncEnabled (b : Bool)
  | setSyncMode (m : SyncMode)
  | selectSeries (name : String)
  | navNext (allowLoop : Bool)
  | navPrev (allowLoop : Bool)
  | slider (i : Int)
  | wheel (now deltaY : Int) (series : String)

/-- One event step of the view.  `selectFiles` and `openFile` rebuild the
viewers and show frame 0 twice (once at the end of `createSeriesViewers`,
once from the caller).  Enabling sync clears the active selection and
recomputes the global index as the minimum bound frame (`Math.min()` of
no arguments is `Infinity`, which the subsequent clamp treats like any
index at or above the maximum, modelled by `getD` of the list length).
`selectSeries` is a no-op while sync is enabled.  Keyboard / button
navigation targets `null` when synced and the active selection otherwise;
a wheel navigation always names the series under the pointer. -/
def simStep (st : SimState) : SimEv → SimState
  | SimEv.selectFiles files =>
    if files.isEmpty then st
    else
      let cat := handleFileSelectCatalog ⟨st.seriesData, st.positionMap⟩ files
      let st1 := { st with seriesData := cat.seriesData,
                           positionMap := cat.positionMap,
                           viewers := makeViewers cat.seriesData,
                           activeSeries := none }
      applyShowFrame (applyShowFrame st1 0 false none) 0 false none
  | SimEv.openFile name =>
    let cat := loadFileCatalog ⟨st.seriesData, st.positionMap⟩ name
    let st1 := { st with seriesData := cat.seriesData,
                         positionMap := cat.positionMap,
                         viewers := makeViewers cat.seriesData }
    applyShowFrame (applyShowFrame st1 0 false none) 0 false none
  | SimEv.setSyncEnabled b =>
    let st1 := { st with syncEnabled := b }
    if b then
      let mi := (jsMinList (st1.viewers.map (fun e => e.2.currentFrame))).getD
        ((st1.positionMap.positions.length : Int))
      let st2 := { st1 with activeSeries := none, currentFrameIndex := mi }
      applyShowFrame st2 mi false none
    else st1
  | SimEv.setSyncMode m =>
    let st1 := { st with syncMode := m }
    if st1.syncEnabled then
      match m with
      | SyncMode.frame =>
        let mi := (jsMinList (st1.viewers.map (fun e => e.2.currentFrame))).getD
          ((st1.positionMap.positions.length : Int))
        let st2 := { st1 with currentFrameIndex := mi }
        applyShowFrame st2 mi false none
      | SyncMode.position =>
        applyShowFrame st1 st1.currentFrameIndex false none
    else st1
  | SimEv.selectSeries name =>
    if st.syncEnabled then st
    else
      let st1 := { st with activeSeries := some name }
      match assocFind st1.viewers name with
      | some v => { st1 with currentFrameIndex := v.currentFrame }
      | none => st1
  | SimEv.navNext allowLoop =>
    simNext st allowLoop (if st.syncEnabled then none else st.activeSeries)
  | SimEv.navPrev allowLoop =>
    simPrev st allowLoop (if st.syncEnabled then none else st.activeSeries)
  | SimEv.slider i => applyShowFrame st i false none
  | SimEv.wheel now deltaY series =>
    let r := handleWheelScroll ⟨st.lastWheelTime, st.wheelDelta⟩ now deltaY series
    let st1 := { st with lastWheelTime := r.1.lastWheelTime,
                         wheelDelta := r.1.wheelDelta }
    match r.2 with
    | some (NavDir.nextDir, t) => simNext st1 true (some t)
    | some (NavDir.prevDir, t) => simPrev st1 true (some t)
    | none => st1

/-- The view's initial state: sync enabled, frame mode, no selection. -/
def initSimState : SimState :=
  { seriesData := []
    positionMap := { positions := [], perSeries := [] }
    viewers := []
    currentFrameIndex := 0
    syncEnabled := true
    syncMode := SyncMode.frame
    activeSeries := none
    lastWheelTime := 0
    wheelDelta := 0 }

/-- Run a list of events from the initial state. -/
def runSim (evs : List SimEv) : SimState :=
  evs.foldl simStep initSimState

/-! ## Claims -/

/-- Claim C3: in synced mode, at the last valid global index,
`navigate(+1, wrap=true)` yields index 0; at index 0,
`navigate(-1, wrap=true)` yields the last index; and with `wrap=false`
both navigations leave the index unchanged (clamped at the boundary). -/
theorem claim3_wrap_clamp (m : Int) (hm : 1 ≤ m) :
    syncedNextFrameIndex true m (m - 1) = 0 ∧
    syncedPrevFrameIndex true m 0 = m - 1 ∧
    syncedNextFrameIndex false m (m - 1) = m - 1 ∧
    syncedPrevFrameIndex false m 0 = 0 := by
  refine ⟨?_, ?_, ?_, ?_⟩
  · have h1 : showNextIndex true m (m - 1) = 0 := by
      unfold showNextIndex
      simp only [if_true]
      rw [if_pos (by omega)]
    unfold syncedNextFrameIndex
    rw [h1]
    unfold clampFrameIndex
    simp only [if_true]
    rw [if_neg (by omega), if_neg (by omega)]
  · have h1 : showPrevIndex true m 0 = m - 1 := by
      unfold showPrevIndex
      simp only [if_true]
      rw [if_pos (by omega)]
    unfold syncedPrevFrameIndex
    rw [h1]
    unfold clampFrameIndex
    simp only [if_true]
    rw [if_neg (by omega), if_neg (by omega)]
  · have h1 : showNextIndex false m (m - 1) = m - 1 := by
      unfold showNextIndex
      simp only [if_false, Bool.false_eq_true, ite_false]
      omega
    unfold syncedNextFrameIndex
    rw [h1]
    unfold clampFrameIndex
    simp only [if_false, Bool.false_eq_true, ite_false]
    omega
  · have h1 : showPrevIndex false m 0 = 0 := by
      unfold showPrevIndex
      simp only [if_false, Bool.false_eq_true, ite_false]
      omega
    unfold syncedPrevFrameIndex
    rw [h1]
    unfold clampFrameIndex
    simp only [if_false, Bool.false_eq_true, ite_false]
    omega

/-- Witness for C3 at `m = 5`. -/
theorem claim3_wrap_clamp_witness :
    syncedNextFrameIndex true 5 4 = 0 ∧
    syncedPrevFrameIndex true 5 0 = 4 ∧
    syncedNextFrameIndex false 5 4 = 4 ∧
    syncedPrevFrameIndex false 5 0 = 0 := by
  have h := claim3_wrap_clamp 5 (by norm_num)
  norm_num at h ⊢
  exact h

/-- Claim C5: `preloadImage` never rejects; it is memoized by locator
(when the locator is cached and load-complete it resolves immediately
without touching the cache); and on decode failure it still stores the
loaded handle into the cache before resolving. -/
theorem claim5_preload (c : List (String × Bool)) (url : String)
    (o : LoadOutcome) :
    (preloadImage c url o).2 = PromiseResult.resolvedP ∧
    (cacheComplete c url = true → preloadImage c url o = (c, PromiseResult.resolvedP)) ∧
    (cacheComplete c url = false → o = LoadOutcome.decodeFail →
      cacheComplete (preloadImage c url o).1 url = true) := by
  refine ⟨?_, ?_, ?_⟩
  · unfold preloadImage
    split_ifs with h
    · rfl
    · cases o <;> rfl
  · intro h
    unfold preloadImage
    rw [if_pos h]
  · intro h ho
    subst ho
    unfold preloadImage
    rw [if_neg (by simp [h])]
    simp [cacheComplete, assocFind]

/-- Witness for C5: an uncached locator whose decode fails still ends up
cached complete, and the promise resolves. -/
theorem claim5_preload_witness :
    (preloadImage [] "u" LoadOutcome.decodeFail).2 = PromiseResult.resolvedP ∧
    cacheComplete (preloadImage [] "u" LoadOutcome.decodeFail).1 "u" = true := by
  have h := claim5_preload [] "u" LoadOutcome.decodeFail
  exact ⟨h.1, h.2.2 (by decide) rfl⟩

/-- Claim C10: the wheel throttle timestamp and delta accumulator are one
shared pair for the whole viewer, not per series: the resulting state and
the presence/direction of the issued navigation do not depend on which
series the event targets; an event less than 30ms after the last accepted
one is dropped wholesale; and deltas from events on different series
accumulate into the same counter, crossing the single 30-unit threshold
(concrete cross-series scenario: +20 on "A", a dropped event on "B", then
+20 on "B" navigates "B" with the shared accumulator at 40). -/
theorem claim10_wheel_shared (st : WheelState) (now deltaY : Int)
    (s₁ s₂ : String) :
    (handleWheelScroll st now deltaY s₁).1 = (handleWheelScroll st now deltaY s₂).1 ∧
    ((handleWheelScroll st now deltaY s₁).2).map Prod.fst
      = ((handleWheelScroll st now deltaY s₂).2).map Prod.fst ∧
    (now - st.lastWheelTime < 30 → handleWheelScroll st now deltaY s₁ = (st, none)) ∧
    ((handleWheelScroll ⟨0, 0⟩ 100 20 "A").2 = none ∧
      (handleWheelScroll (handleWheelScroll ⟨0, 0⟩ 100 20 "A").1 110 50 "B")
        = ((handleWheelScroll ⟨0, 0⟩ 100 20 "A").1, none) ∧
      (handleWheelScroll
        (handleWheelScroll (handleWheelScroll ⟨0, 0⟩ 100 20 "A").1 110 50 "B").1
        140 20 "B")
        = (⟨140, 0⟩, some (NavDir.nextDir, "B"))) := by
  refine ⟨?_, ?_, ?_, by decide⟩
  · unfold handleWheelScroll
    dsimp only
    split_ifs <;> rfl
  · unfold handleWheelScroll
    dsimp only
    split_ifs <;> rfl
  · intro h
    unfold handleWheelScroll
    rw [if_pos h]

/-- Witness for C10: the drop rule applied at a concrete state. -/
theorem claim10_wheel_shared_witness :
    handleWheelScroll ⟨100, 20⟩ 110 50 "B" = (⟨100, 20⟩, none) :=
  (claim10_wheel_shared ⟨100, 20⟩ 110 50 "B" "B").2.2.1 (by decide)

/-- The retry-loop cache never changes while the url keeps erroring. -/
theorem switchCacheAt_loadError (c0 : List (String × Bool)) (url : String)
    (h : switchReady c0 url = false) :
    ∀ n, switchCacheAt c0 url (fun _ => LoadOutcome.loadError) n = c0 := by
  intro n
  induction n with
  | zero => rfl
  | succ k ih =>
    unfold switchCacheAt
    rw [ih, h]
    simp only [Bool.false_eq_true, if_false]
    unfold preloadImage switchReady at *
    rw [if_neg (by simp [h])]

/-- Claim C6 counterexample: for a locator whose load always errors
(`onerror` resolves `preloadImage` without storing anything), the
`switchImage` retry loop never reaches the buffer swap — it does NOT
always terminate, contrary to the claim that preload's resolution
bounds the retries. -/
theorem claim6_counterexample :
    ¬ ∃ n, switchDone [] "u" (fun _ => LoadOutcome.loadError) n = true := by
  rintro ⟨n, hn⟩
  unfold switchDone at hn
  rw [switchCacheAt_loadError [] "u" (by decide) n] at hn
  simp [switchReady, cacheComplete, assocFind] at hn

/-- Claim C6 (amended): a retry round whose load attempt completes
(`onload` fires — decode may still fail) stores the handle, so the next
`switchImage` attempt finds the locator ready and performs the swap; once
ready, readiness persists.  Only a locator whose load errors on every
attempt retries forever. -/
theorem claim6_retry_terminates (c0 : List (String × Bool)) (url : String)
    (outs : Nat → LoadOutcome) (k : Nat)
    (h : outs k ≠ LoadOutcome.loadError) :
    switchDone c0 url outs (k + 1) = true := by
  unfold switchDone switchCacheAt
  by_cases hr : switchReady (switchCacheAt c0 url outs k) url = true
  · rw [if_pos hr]
    exact hr
  · rw [if_neg hr]
    rw [Bool.not_eq_true] at hr
    unfold preloadImage
    unfold switchReady at hr
    rw [hr]
    simp only [Bool.false_eq_true, if_false]
    cases ho : outs k with
    | decodeOk => simp [switchReady, cacheComplete, assocFind]
    | decodeFail => simp [switchReady, cacheComplete, assocFind]
    | loadError => exact absurd ho h

/-- Witness for C6 (amended): one decode-failing load attempt suffices. -/
theorem claim6_retry_terminates_witness :
    switchDone [] "u" (fun _ => LoadOutcome.decodeFail) 1 = true :=
  claim6_retry_terminates [] "u" (fun _ => LoadOutcome.decodeFail) 0 (by decide)

/-- `⌊a / b⌋ = 1` when `b ≤ a < 2b`: a firing with no missed tick drops
exactly one interval. -/
theorem floorDiv_eq_one (a b : ℚ) (hb : 0 < b) (h1 : b ≤ a) (h2 : a < 2 * b) :
    ⌊a / b⌋ = 1 := by
  rw [Int.floor_eq_iff]
  constructor
  · push_cast
    rw [le_div_iff hb]
    linarith
  · push_cast
    rw [div_lt_iff hb]
    linarith

/-- With no missed tick, `elapsed % delay` equals `elapsed - delay`. -/
theorem qmod_eq_sub (a b : ℚ) (hb : 0 < b) (h1 : b ≤ a) (h2 : a < 2 * b) :
    qmod a b = a - b := by
  unfold qmod
  rw [floorDiv_eq_one a b hb h1 h2]
  push_cast
  ring

/-- One playback iteration under the no-missed-tick side conditions keeps
the invariant `lastTime = t0 + advances * delay` and leaves the elapsed
accumulator in `[0, delay)`. -/
theorem playStep_inv (delay t0 : ℚ) (hd : 0 < delay) (st : PlayState) (t : ℚ)
    (hlast : st.lastTime = t0 + (st.advances : ℚ) * delay)
    (h1 : st.lastTime ≤ t) (h2 : t - st.lastTime < 2 * delay) :
    (playStep delay st t).lastTime
        = t0 + ((playStep delay st t).advances : ℚ) * delay ∧
    (playStep delay st t).lastTime ≤ t ∧
    t - (playStep delay st t).lastTime < delay := by
  unfold playStep
  split_ifs with hf
  · have hq : qmod (t - st.lastTime) delay = t - st.lastTime - delay :=
      qmod_eq_sub _ _ hd hf h2
    dsimp only
    rw [hq]
    refine ⟨?_, by linarith, by linarith⟩
    push_cast
    rw [hlast]
    ring
  · exact ⟨hlast, h1, by linarith [not_le.mp hf]⟩

/-- Folding the playback loop over a no-missed-tick list keeps the
invariant and bounds the final accumulator by one interval. -/
theorem playRun_aux (delay t0 : ℚ) (hd : 0 < delay) :
    ∀ (ticks : List ℚ) (st : PlayState),
      st.lastTime = t0 + (st.advances : ℚ) * delay →
      ticksOkB delay st ticks = true →
      (List.foldl (playStep delay) st ticks).lastTime
          = t0 + ((List.foldl (playStep delay) st ticks).advances : ℚ) * delay ∧
      (∀ tl, ticks.getLast? = some tl →
        (List.foldl (playStep delay) st ticks).lastTime ≤ tl ∧
        tl - (List.foldl (playStep delay) st ticks).lastTime < delay) := by
  intro ticks
  induction ticks with
  | nil =>
    intro st hlast _
    refine ⟨hlast, fun tl h => by simp at h⟩
  | cons t ts ih =>
    intro st hlast hok
    unfold ticksOkB at hok
    rw [Bool.and_eq_true, Bool.and_eq_true] at hok
    obtain ⟨⟨h1, h2⟩, hrest⟩ := hok
    rw [decide_eq_true_eq] at h1 h2
    have hstep := playStep_inv delay t0 hd st t hlast h1 h2
    simp only [List.foldl_cons]
    have ihr := ih (playStep delay st t) hstep.1 hrest
    refine ⟨ihr.1, ?_⟩
    intro tl hl
    cases ts with
    | nil =>
      simp only [List.getLast?_singleton, Option.some.injEq] at hl
      subst hl
      simpa using ⟨hstep.2.1, hstep.2.2⟩
    | cons t2 ts2 =>
      rw [List.getLast?_cons_cons] at hl
      exact ihr.2 tl hl

/-- Claim C7 (amended): once `elapsed ≥ interval`, an iteration advances
exactly one frame and sets `lastTime = time - elapsed % interval` — that
is, it subtracts `⌊elapsed/interval⌋` intervals from the accumulator,
which is exactly one interval only while `elapsed < 2·interval`; under no
missed ticks (`ticksOkB`), exactly `⌊(T - t0)·R/1000⌋` frame advances
occur over wall time from `t0` to the last tick `T` at rate `R`, with no
tick lost or gained by rounding. -/
theorem claim7_playback_pacing (R t0 : ℚ) (ticks : List ℚ) (tl : ℚ)
    (hR : 0 < R)
    (hok : ticksOkB (1000 / R) { lastTime := t0, advances := 0 } ticks = true)
    (hlast : ticks.getLast? = some tl) :
    ((playRun (1000 / R) t0 ticks).advances : ℤ) = ⌊(tl - t0) * R / 1000⌋ ∧
    (∀ st t, 1000 / R ≤ t - st.lastTime →
      (playStep (1000 / R) st t).advances = st.advances + 1 ∧
      (playStep (1000 / R) st t).lastTime
        = t - qmod (t - st.lastTime) (1000 / R)) := by
  have hd : 0 < 1000 / R := by positivity
  obtain ⟨hinv, hbnd⟩ :=
    playRun_aux (1000 / R) t0 hd ticks ⟨t0, 0⟩ (by simp) hok
  obtain ⟨hle, hlt⟩ := hbnd tl hlast
  constructor
  · unfold playRun at *
    set a := (List.foldl (playStep (1000 / R)) ⟨t0, 0⟩ ticks).advances with ha
    symm
    have key : (tl - t0) * R / 1000 = (tl - t0) / (1000 / R) := by
      rw [div_div_eq_mul_div]
    rw [key, Int.floor_eq_iff]
    constructor
    · push_cast
      rw [le_div_iff hd]
      rw [hinv] at hle
      linarith
    · push_cast
      rw [div_lt_iff hd]
      rw [hinv] at hlt
      linarith
  · intro st t hf
    unfold playStep
    rw [if_pos hf]
    exact ⟨rfl, rfl⟩

/-- Witness for C7 (amended) at rate 5 with ticks at 250ms and 430ms:
two advances, `⌊430·5/1000⌋ = 2`. -/
theorem claim7_playback_pacing_witness :
    ((playRun (1000 / 5 : ℚ) 0 [250, 430]).advances : ℤ)
      = ⌊((430 : ℚ) - 0) * 5 / 1000⌋ :=
  (claim7_playback_pacing 5 0 [250, 430] 430 (by norm_num)
    (by norm_num [ticksOkB, playStep, qmod]) rfl).1

/-- Claim C7 counterexample: at a firing with `elapsed = 500` and
`interval = 200` the code sets `lastTime` to `500 - 500 % 200 = 400`,
i.e. it subtracts two intervals from the accumulator; "subtracts exactly
one interval" would give `lastTime = 0 + 200`. -/
theorem claim7_counterexample :
    (playStep 200 ⟨0, 0⟩ 500).lastTime = 400 ∧
    (playStep 200 ⟨0, 0⟩ 500).lastTime ≠ (0 : ℚ) + 200 := by
  constructor
  · unfold playStep qmod
    norm_num
  · unfold playStep qmod
    norm_num

/-- The batch of files of the spec's worked example. -/
def c1Files : List String :=
  ["T1_01.jpg", "T1_02.jpg", "T1_03.jpg", "T1_04.jpg", "T1_05.jpg",
   "T2_01.jpg", "T2_02.jpg", "T2_03.jpg"]

/-- Catalog state after selecting the example batch. -/
def c1State : CatalogState := handleFileSelectCatalog ⟨[], ⟨[], []⟩⟩ c1Files

/-- Viewer states after navigating to global index 4 in synced position
mode on the example batch (both viewers start at frame 0). -/
def c1Run : Int × List (String × VState) × Nat :=
  showFrameRun c1State.seriesData c1State.positionMap true SyncMode.position
    [("T1加权像 (T1WI)", ⟨0, 0⟩), ("T2加权像 (T2WI)", ⟨0, 0⟩)] 4 false none

/-- Claim C1 counterexample: on the example batch, at global index 4 in
synced position mode, the T2 series' lookup of position 20 misses and
falls back to frame index 0 — it does NOT display frame 3 (index 2) as
the claim states. -/
theorem claim1_counterexample :
    ((assocFind c1Run.2.1 "T2加权像 (T2WI)").map (fun v => v.currentFrame))
        = some 0 ∧
    ((assocFind c1Run.2.1 "T2加权像 (T2WI)").map (fun v => v.currentFrame))
        ≠ some 2 := by
  constructor
  · rfl
  · decide

/-- Claim C1 (amended): with series T1WI built from `T1_01.jpg..T1_05.jpg`
and T2WI from `T2_01.jpg..T2_03.jpg` loaded together with spacing 5, the
global position count is 5, and after navigating to global index 4 in
synced position mode, T1WI displays its frame 5 (index 4, position 20)
while T2WI, whose exact-match lookup of position 20 misses, displays its
frame 1 (index 0, the fallback frame). -/
theorem claim1_example :
    c1State.positionMap.positions = [0, 5, 10, 15, 20] ∧
    c1Run.1 = 4 ∧
    ((assocFind c1Run.2.1 "T1加权像 (T1WI)").map (fun v => v.currentFrame))
        = some 4 ∧
    ((assocFind c1Run.2.1 "T2加权像 (T2WI)").map (fun v => v.currentFrame))
        = some 0 := by
  exact ⟨rfl, rfl, rfl, rfl⟩

/-- Reading the table built by the `createPositionMap` write loop returns
the last write for a present key and falls through otherwise. -/
theorem tblFind_foldl_enumFrom (p : Int) :
    ∀ (l : List Int) (n : Nat) (t : List (Int × Nat)),
      tblFind ((l.enumFrom n).foldl (fun t q => (q.2, q.1) :: t) t) p
        = (match lastIdxOf l p with
           | some i => some (n + i)
           | none => tblFind t p) := by
  intro l
  induction l with
  | nil => intro n t; rfl
  | cons x xs ih =>
    intro n t
    simp only [List.enumFrom, List.foldl_cons]
    rw [ih (n + 1) ((x, n) :: t)]
    cases h : lastIdxOf xs p with
    | some i =>
      simp only [lastIdxOf, h, Option.some.injEq]
      omega
    | none =>
      simp only [lastIdxOf, h]
      by_cases hx : x = p
      · subst hx
        simp [tblFind]
      · simp [tblFind, hx]

/-- `tblFind` on `buildTable` is exactly the last index of the key. -/
theorem tblFind_buildTable (l : List Int) (p : Int) :
    tblFind (buildTable l) p = lastIdxOf l p := by
  unfold buildTable
  rw [List.enum]
  rw [tblFind_foldl_enumFrom p l 0 []]
  cases h : lastIdxOf l p with
  | some i => simp
  | none => rfl

/-- `lastIdxOf` misses exactly when the value is absent. -/
theorem lastIdxOf_eq_none_iff (p : Int) :
    ∀ l : List Int, lastIdxOf l p = none ↔ p ∉ l := by
  intro l
  induction l with
  | nil => simp [lastIdxOf]
  | cons x xs ih =>
    unfold lastIdxOf
    cases h : lastIdxOf xs p with
    | some i =>
      simp only [h]
      rw [h] at ih  -- not needed; direct
      constructor
      · intro hc; exact absurd hc (by simp)
      · intro hc
        exfalso
        apply hc
        have : p ∈ xs := by
          by_contra hmem
          rw [← ih] at hmem
          simp [h] at hmem
        exact List.mem_cons_of_mem x this
    | none =>
      simp only [h]
      constructor
      · intro hc
        by_cases hx : x = p
        · rw [if_pos hx] at hc; exact absurd hc (by simp)
        · rw [List.mem_cons, not_or]
          exact ⟨fun he => hx he.symm, (ih.mp h)⟩
      · intro hc
        rw [List.mem_cons, not_or] at hc
        rw [if_neg (fun he => hc.1 he.symm)]

/-- The index `lastIdxOf` returns does hold the value. -/
theorem lastIdxOf_get (p : Int) :
    ∀ (l : List Int) (i : Nat), lastIdxOf l p = some i → l.get? i = some p := by
  intro l
  induction l with
  | nil => intro i h; exact absurd h (by simp [lastIdxOf])
  | cons x xs ih =>
    intro i h
    unfold lastIdxOf at h
    cases hx : lastIdxOf xs p with
    | some j =>
      rw [hx] at h
      simp only [Option.some.injEq] at h
      subst h
      simpa using ih j hx
    | none =>
      rw [hx] at h
      split_ifs at h with he
      · simp only [Option.some.injEq] at h
        subst h
        simp [he]

/-- `assocFind` commutes with a value-wise map. -/
theorem assocFind_map_val {β γ : Type} (g : β → γ) (k : String) :
    ∀ l : List (String × β),
      assocFind (l.map (fun e => (e.1, g e.2))) k = (assocFind l k).map g := by
  intro l
  induction l with
  | nil => rfl
  | cons e t ih =>
    simp only [List.map_cons]
    unfold assocFind
    split_ifs with h
    · rfl
    · exact ih

/-- Reading a JS array at a `Nat` index. -/
theorem getAt_natCast {α : Type} (l : List α) (i : Nat) :
    getAt l (i : Int) = l.get? i := by
  unfold getAt
  rw [if_pos (Int.natCast_nonneg i), Int.toNat_natCast]

/-- Claim C2: for every valid global index `i`, after a synced
position-mode binding update, the bound series displays the frame whose
position exactly equals `globalPositions[i]` when such a frame exists in
that series (the last such index, by the table's last-write-wins), and
frame index 0 otherwise — an exact-match lookup with presence-based
fallback, never nearest-distance. -/
theorem claim2_exact_lookup (sd : List (String × SeriesData))
    (name : String) (series : SeriesData) (v : VState) (i : Nat) (p : Int)
    (hs : assocFind sd name = some series)
    (hp : (createPositionMap sd).positions.get? i = some p) :
    (p ∈ series.positions →
      getAt series.positions
        (updateSeriesFrame sd (createPositionMap sd) true SyncMode.position
          name v (i : Int) false).1.currentFrame = some p) ∧
    (p ∉ series.positions →
      (updateSeriesFrame sd (createPositionMap sd) true SyncMode.position
          name v (i : Int) false).1.currentFrame = 0) := by
  have htbl : seriesTable (createPositionMap sd) name
      = buildTable series.positions := by
    unfold seriesTable createPositionMap
    rw [assocFind_map_val (fun s => buildTable s.positions) name sd]
    rw [hs]
    rfl
  have hdisp : displayOf (createPositionMap sd) SyncMode.position name series
      (i : Int) = ((lastIdxOf series.positions p).getD 0 : Nat) := by
    unfold displayOf
    rw [if_pos rfl]
    rw [getAt_natCast, hp]
    dsimp only
    rw [htbl, tblFind_buildTable]
  have hcf : (updateSeriesFrame sd (createPositionMap sd) true
      SyncMode.position name v (i : Int) false).1.currentFrame
      = ((lastIdxOf series.positions p).getD 0 : Nat) := by
    unfold updateSeriesFrame
    rw [hs]
    simp only [if_true, Bool.true_eq_false]
    rw [hdisp]
    split_ifs with hc
    · exact hc.2
    · rfl
  constructor
  · intro hmem
    rw [hcf]
    have hsome : ∃ j, lastIdxOf series.positions p = some j := by
      cases hj : lastIdxOf series.positions p with
      | some j => exact ⟨j, rfl⟩
      | none => exact absurd hmem ((lastIdxOf_eq_none_iff p series.positions).mp hj)
    obtain ⟨j, hj⟩ := hsome
    rw [hj]
    simp only [Option.getD_some]
    rw [getAt_natCast]
    exact lastIdxOf_get p series.positions j hj
  · intro hmem
    rw [hcf]
    rw [(lastIdxOf_eq_none_iff p series.positions).mpr hmem]
    rfl

/-- Series data for the C2 witness: one series with positions 0 and 5. -/
def c2WitnessSD : List (String × SeriesData) :=
  [("A", { name := "A"
           frames := [⟨"a1.jpg", 1, 0⟩, ⟨"a2.jpg", 2, 5⟩]
           sliceThickness := 5
           sliceSpacing := 5
           positions := [0, 5] })]

/-- Witness for C2 at global index 1 (position 5, present in the series). -/
theorem claim2_exact_lookup_witness :
    getAt ([0, 5] : List Int)
      (updateSeriesFrame c2WitnessSD (createPositionMap c2WitnessSD) true
        SyncMode.position "A" ⟨0, 0⟩ ((1 : Nat) : Int) false).1.currentFrame
      = some 5 := by
  have h := (claim2_exact_lookup c2WitnessSD "A"
    { name := "A"
      frames := [⟨"a1.jpg", 1, 0⟩, ⟨"a2.jpg", 2, 5⟩]
      sliceThickness := 5
      sliceSpacing := 5
      positions := [0, 5] } ⟨0, 0⟩ 1 5 rfl rfl).1 (by decide)
  exact h

/-- The non-wrap clamp of `showFrame` is idempotent. -/
theorem clampFrameIndex_idem (m i : Int) :
    clampFrameIndex false m (clampFrameIndex false m i)
      = clampFrameIndex false m i := by
  unfold clampFrameIndex
  simp only [Bool.false_eq_true, if_false]
  omega

/-- After a synced, unforced binding update, the binding displays exactly
the resolved frame. -/
theorem updateSeriesFrame_cf (sd : List (String × SeriesData))
    (pm : PositionMap) (sm : SyncMode) (name : String) (v : VState) (i : Int)
    (s : SeriesData) (h : assocFind sd name = some s) :
    (updateSeriesFrame sd pm true sm name v i false).1.currentFrame
      = displayOf pm sm name s i := by
  unfold updateSeriesFrame
  simp only [h, reduceIte]
  split_ifs with hc
  · exact hc.2
  · rfl

/-- A synced, unforced update resolving to the displayed frame is
skipped: no transition fires and the state is unchanged. -/
theorem updateSeriesFrame_skip (sd : List (String × SeriesData))
    (pm : PositionMap) (sm : SyncMode) (name : String) (v : VState) (i : Int)
    (s : SeriesData) (h : assocFind sd name = some s)
    (hv : v.currentFrame = displayOf pm sm name s i) :
    updateSeriesFrame sd pm true sm name v i false = (v, false) := by
  unfold updateSeriesFrame
  simp only [h, reduceIte]
  rw [if_pos ⟨trivial, hv⟩]

/-- A synced, unforced binding update applied to its own result fires no
transition: the second resolution equals the already-displayed frame. -/
theorem updateSeriesFrame_repeat (sd : List (String × SeriesData))
    (pm : PositionMap) (sm : SyncMode) (name : String) (v : VState) (i : Int) :
    (updateSeriesFrame sd pm true sm name
      (updateSeriesFrame sd pm true sm name v i false).1 i false).2 = false := by
  cases h : assocFind sd name with
  | none =>
    conv_lhs => rw [updateSeriesFrame]
    simp only [h]
  | some s =>
    rw [updateSeriesFrame_skip sd pm sm name _ i s h
      (updateSeriesFrame_cf sd pm sm name v i s h)]

/-- A list of updates none of which fired counts zero transitions. -/
theorem countFired_eq_zero (l : List (String × VState × Bool))
    (h : ∀ e ∈ l, e.2.2 = false) : countFired l = 0 := by
  unfold countFired
  apply List.sum_eq_zero
  intro x hx
  rw [List.mem_map] at hx
  obtain ⟨e, he, hex⟩ := hx
  rw [← hex, h e he]
  simp

/-- Claim C4 (amended): in synced mode, a second `navigate(0, wrap=false)`
from the resulting state triggers zero transitions — every binding
resolves to its already-displayed frame and is skipped; in unsynced mode,
however, a navigation names an explicit target and the code always forces
that binding's update, so a transition fires on every repeat. -/
theorem claim4_repeat_navigation (sd : List (String × SeriesData))
    (pm : PositionMap) (sm : SyncMode) (viewers : List (String × VState))
    (cfi : Int) (n : String) (s : SeriesData) (v : VState) (i : Int)
    (hs : assocFind sd n = some s) :
    (showFrameRun sd pm true sm
        (showFrameRun sd pm true sm viewers cfi false none).2.1
        (showFrameRun sd pm true sm viewers cfi false none).1
        false none).2.2 = 0 ∧
    (updateSeriesFrame sd pm false sm n v i true).2 = true := by
  constructor
  · simp only [showFrameRun, reduceIte]
    rw [clampFrameIndex_idem]
    apply countFired_eq_zero
    intro e he
    simp only [List.map_map, List.mem_map, Function.comp] at he
    obtain ⟨e0, he0, rfl⟩ := he
    exact updateSeriesFrame_repeat sd pm sm e0.1 e0.2 _
  · unfold updateSeriesFrame
    simp only [hs, reduceIte]
    rfl

/-- Witness for C4's hypothesis: a concrete catalog entry. -/
theorem claim4_repeat_navigation_witness :
    (showFrameRun c2WitnessSD (createPositionMap c2WitnessSD) true
        SyncMode.frame
        (showFrameRun c2WitnessSD (createPositionMap c2WitnessSD) true
          SyncMode.frame [("A", ⟨0, 0⟩)] 1 false none).2.1
        (showFrameRun c2WitnessSD (createPositionMap c2WitnessSD) true
          SyncMode.frame [("A", ⟨0, 0⟩)] 1 false none).1
        false none).2.2 = 0 ∧
    (updateSeriesFrame c2WitnessSD (createPositionMap c2WitnessSD) false
        SyncMode.frame "A"
        { currentFrame := 0, currentPosition := 0 } 0 true).2 = true :=
  claim4_repeat_navigation c2WitnessSD (createPositionMap c2WitnessSD)
    SyncMode.frame [("A", ⟨0, 0⟩)] 1 "A"
    { name := "A"
      frames := [⟨"a1.jpg", 1, 0⟩, ⟨"a2.jpg", 2, 5⟩]
      sliceThickness := 5
      sliceSpacing := 5
      positions := [0, 5] } ⟨0, 0⟩ 0 rfl

/-- Claim C4 counterexample: sync disabled, target series "A", global
index 0; the second `navigate(0, wrap=false)` still fires one transition
(the unsynced path passes `forceUpdate = true`), not zero as claimed for
every reachable state. -/
theorem claim4_counterexample :
    (showFrameRun c2WitnessSD (createPositionMap c2WitnessSD) false
        SyncMode.frame
        (showFrameRun c2WitnessSD (createPositionMap c2WitnessSD) false
          SyncMode.frame [("A", ⟨0, 0⟩)] 0 false (some "A")).2.1
        (showFrameRun c2WitnessSD (createPositionMap c2WitnessSD) false
          SyncMode.frame [("A", ⟨0, 0⟩)] 0 false (some "A")).1
        false (some "A")).2.2 = 1 := by
  decide

/-- Sorted insertion permutes to a cons. -/
theorem insSorted_perm (x : Int) : ∀ l : List Int, List.Perm (insSorted x l) (x :: l) := by
  intro l
  induction l with
  | nil => rfl
  | cons y ys ih =>
    unfold insSorted
    split_ifs
    · rfl
    · exact (List.Perm.cons y ih).trans (List.Perm.swap x y ys)

/-- `sortInt` permutes its input. -/
theorem sortInt_perm : ∀ l : List Int, List.Perm (sortInt l) l := by
  intro l
  induction l with
  | nil => rfl
  | cons x xs ih => exact (insSorted_perm x (sortInt xs)).trans (List.Perm.cons x ih)

/-- Sorted insertion preserves `≤`-sortedness. -/
theorem insSorted_sorted (x : Int) :
    ∀ l : List Int, l.Sorted (· ≤ ·) → (insSorted x l).Sorted (· ≤ ·) := by
  intro l
  induction l with
  | nil => intro _; simp [insSorted]
  | cons y ys ih =>
    intro hs
    rw [List.sorted_cons] at hs
    unfold insSorted
    split_ifs with hxy
    · rw [List.sorted_cons]
      refine ⟨?_, List.sorted_cons.mpr hs⟩
      intro b hb
      rcases List.mem_cons.mp hb with hby | hbys
      · omega
      · have := hs.1 b hbys
        omega
    · rw [List.sorted_cons]
      refine ⟨?_, ih hs.2⟩
      intro b hb
      rcases List.mem_cons.mp ((insSorted_perm x ys).mem_iff.mp hb) with hbx | hbys
      · subst hbx; omega
      · exact hs.1 b hbys

/-- `sortInt` produces a `≤`-sorted list. -/
theorem sortInt_sorted : ∀ l : List Int, (sortInt l).Sorted (· ≤ ·) := by
  intro l
  induction l with
  | nil => simp [sortInt]
  | cons x xs ih => exact insSorted_sorted x (sortInt xs) ih

/-- The `Set`-style fold keeps no duplicates. -/
theorem dedupFold_nodup :
    ∀ (l acc : List Int), acc.Nodup →
      (l.foldl (fun acc x => if x ∈ acc then acc else acc ++ [x]) acc).Nodup := by
  intro l
  induction l with
  | nil => intro acc h; exact h
  | cons x xs ih =>
    intro acc h
    simp only [List.foldl_cons]
    split_ifs with hx
    · exact ih acc h
    · exact ih (acc ++ [x]) (by simp [List.nodup_append, h, hx])

/-- Membership in the `Set`-style fold. -/
theorem dedupFold_mem (p : Int) :
    ∀ (l acc : List Int),
      (p ∈ l.foldl (fun acc x => if x ∈ acc then acc else acc ++ [x]) acc
        ↔ p ∈ acc ∨ p ∈ l) := by
  intro l
  induction l with
  | nil => intro acc; simp
  | cons x xs ih =>
    intro acc
    simp only [List.foldl_cons]
    split_ifs with hx
    · rw [ih acc]
      constructor
      · rintro (h | h)
        · exact Or.inl h
        · exact Or.inr (List.mem_cons_of_mem x h)
      · rintro (h | h)
        · exact Or.inl h
        · rcases List.mem_cons.mp h with rfl | h2
          · exact Or.inl hx
          · exact Or.inr h2
    · rw [ih (acc ++ [x])]
      simp only [List.mem_append, List.mem_singleton, List.mem_cons]
      tauto

/-- `dedupFirst` keeps no duplicates. -/
theorem dedupFirst_nodup (l : List Int) : (dedupFirst l).Nodup :=
  dedupFold_nodup l [] List.nodup_nil

/-- `dedupFirst` keeps exactly the members. -/
theorem dedupFirst_mem (p : Int) (l : List Int) : p ∈ dedupFirst l ↔ p ∈ l := by
  unfold dedupFirst
  rw [dedupFold_mem p l []]
  simp

/-- A `≤`-sorted list without duplicates is `<`-sorted. -/
theorem pairwise_lt_of_sorted_nodup :
    ∀ l : List Int, l.Sorted (· ≤ ·) → l.Nodup → l.Pairwise (· < ·) := by
  intro l
  induction l with
  | nil => intro _ _; exact List.Pairwise.nil
  | cons x xs ih =>
    intro hs hn
    rw [List.sorted_cons] at hs
    rw [List.nodup_cons] at hn
    rw [List.pairwise_cons]
    refine ⟨?_, ih hs.2 hn.2⟩
    intro b hb
    have h1 := hs.1 b hb
    have h2 : x ≠ b := fun he => hn.1 (he ▸ hb)
    omega

/-- The global position list built by `createPositionMap` is strictly
increasing. -/
theorem createPositionMap_sorted (sd : List (String × SeriesData)) :
    (createPositionMap sd).positions.Pairwise (· < ·) := by
  unfold createPositionMap
  apply pairwise_lt_of_sorted_nodup
  · exact sortInt_sorted _
  · exact ((sortInt_perm _).nodup_iff).mpr (dedupFirst_nodup _)

/-- The global position list holds exactly the positions occurring in the
series set. -/
theorem createPositionMap_mem (sd : List (String × SeriesData)) (p : Int) :
    p ∈ (createPositionMap sd).positions ↔ p ∈ allPositionsOf sd := by
  unfold createPositionMap
  rw [(sortInt_perm _).mem_iff]
  exact dedupFirst_mem p _

/-- `groupAdd` never yields an empty grouping. -/
theorem groupAdd_ne_nil (g : List (String × List String)) (k f : String) :
    groupAdd g k f ≠ [] := by
  cases g with
  | nil => simp [groupAdd]
  | cons e t =>
    unfold groupAdd
    split_ifs <;> simp

/-- The grouping fold preserves nonemptiness. -/
theorem groupFold_ne_nil :
    ∀ (files : List String) (g : List (String × List String)), g ≠ [] →
      files.foldl (fun g f => groupAdd g (detectSeriesFromFileName f).1 f) g ≠ [] := by
  intro files
  induction files with
  | nil => intro g h; exact h
  | cons f fs ih =>
    intro g _
    simp only [List.foldl_cons]
    exact ih _ (groupAdd_ne_nil g _ f)

/-- A nonempty batch yields a nonempty grouping. -/
theorem groupFiles_ne_nil (files : List String) (h : files ≠ []) :
    groupFiles files ≠ [] := by
  cases files with
  | nil => exact absurd rfl h
  | cons f fs =>
    unfold groupFiles
    simp only [List.foldl_cons]
    exact groupFold_ne_nil fs _ (groupAdd_ne_nil [] _ f)

/-- After the per-group processing fold of `handleFileSelect` runs at
least once, the stored position map is the one rebuilt from the stored
series data (the last iteration rebuilds over the complete set). -/
theorem catalogFold_synced :
    ∀ (groups : List (String × List String)) (acc : CatalogState),
      groups ≠ [] →
      (groups.foldl (fun acc g =>
          let sd := assocSet acc.seriesData g.1 (processSeriesFiles g.1 g.2)
          ({ seriesData := sd, positionMap := createPositionMap sd } : CatalogState))
        acc).positionMap
      = createPositionMap (groups.foldl (fun acc g =>
          let sd := assocSet acc.seriesData g.1 (processSeriesFiles g.1 g.2)
          ({ seriesData := sd, positionMap := createPositionMap sd } : CatalogState))
        acc).seriesData := by
  intro groups
  induction groups with
  | nil => intro acc h; exact absurd rfl h
  | cons g gs ih =>
    intro acc _
    simp only [List.foldl_cons]
    cases gs with
    | nil => rfl
    | cons g2 gs2 => exact ih _ (by simp)

/-- Claim C8 (amended): after a nonempty batch file selection the
position index is rebuilt in full — `globalPositions` is the
deduplicated, strictly increasing sequence of all frame positions across
the new series set; but loading a single external file via `loadFile`
replaces the series data WITHOUT rebuilding the position index, which
keeps its previous contents. -/
theorem claim8_rebuild (st : CatalogState) (files : List String) (f : String)
    (hne : files ≠ []) :
    (handleFileSelectCatalog st files).positionMap
        = createPositionMap (handleFileSelectCatalog st files).seriesData ∧
    (handleFileSelectCatalog st files).positionMap.positions.Pairwise (· < ·) ∧
    (∀ p, p ∈ (handleFileSelectCatalog st files).positionMap.positions ↔
        p ∈ allPositionsOf (handleFileSelectCatalog st files).seriesData) ∧
    (loadFileCatalog st f).positionMap = st.positionMap := by
  have hsync : (handleFileSelectCatalog st files).positionMap
      = createPositionMap (handleFileSelectCatalog st files).seriesData := by
    unfold handleFileSelectCatalog
    rw [if_neg (by simpa [List.isEmpty_iff] using hne)]
    exact catalogFold_synced (groupFiles files) _ (groupFiles_ne_nil files hne)
  refine ⟨hsync, ?_, ?_, rfl⟩
  · rw [hsync]
    exact createPositionMap_sorted _
  · intro p
    rw [hsync]
    exact createPositionMap_mem _ p

/-- Witness for C8 (amended) on the example batch and a singleton load. -/
theorem claim8_rebuild_witness :
    (handleFileSelectCatalog ⟨[], ⟨[], []⟩⟩ c1Files).positionMap
        = createPositionMap
            (handleFileSelectCatalog ⟨[], ⟨[], []⟩⟩ c1Files).seriesData ∧
    (loadFileCatalog ⟨[], ⟨[], []⟩⟩ "foo.jpg").positionMap = ⟨[], []⟩ := by
  have h := claim8_rebuild ⟨[], ⟨[], []⟩⟩ c1Files "foo.jpg" (by decide)
  exact ⟨h.1, h.2.2.2⟩

/-- Claim C8 counterexample: loading a single external file into an empty
view leaves `globalPositions` empty even though the new singleton series
contributes position 0 — the position index was not rebuilt. -/
theorem claim8_counterexample :
    (loadFileCatalog ⟨[], ⟨[], []⟩⟩ "foo.jpg").positionMap.positions = [] ∧
    allPositionsOf (loadFileCatalog ⟨[], ⟨[], []⟩⟩ "foo.jpg").seriesData = [0] ∧
    (loadFileCatalog ⟨[], ⟨[], []⟩⟩ "foo.jpg").positionMap.positions
      ≠ sortInt (dedupFirst
          (allPositionsOf (loadFileCatalog ⟨[], ⟨[], []⟩⟩ "foo.jpg").seriesData)) := by
  refine ⟨rfl, rfl, ?_⟩
  decide

/-- `showFrame` only moves the cursor and the viewers. -/
theorem applyShowFrame_fields (st : SimState) (i : Int) (al : Bool)
    (tgt : Option String) :
    (applyShowFrame st i al tgt).activeSeries = st.activeSeries ∧
    (applyShowFrame st i al tgt).syncEnabled = st.syncEnabled :=
  ⟨rfl, rfl⟩

/-- `showNextFrame` only moves the cursor and the viewers. -/
theorem simNext_fields (st : SimState) (al : Bool) (tgt : Option String) :
    (simNext st al tgt).activeSeries = st.activeSeries ∧
    (simNext st al tgt).syncEnabled = st.syncEnabled := by
  unfold simNext
  by_cases hse : st.syncEnabled = true
  · rw [if_pos hse]
    exact applyShowFrame_fields _ _ _ _
  · rw [if_neg hse]
    cases tgt with
    | none => exact ⟨rfl, rfl⟩
    | some t =>
      cases hv : assocFind st.viewers t with
      | none => simp [hv]
      | some v =>
        cases hs : assocFind st.seriesData t with
        | none => simp [hv, hs]
        | some s => simp [hv, hs]

/-- `showPreviousFrame` only moves the cursor and the viewers. -/
theorem simPrev_fields (st : SimState) (al : Bool) (tgt : Option String) :
    (simPrev st al tgt).activeSeries = st.activeSeries ∧
    (simPrev st al tgt).syncEnabled = st.syncEnabled := by
  unfold simPrev
  by_cases hse : st.syncEnabled = true
  · rw [if_pos hse]
    exact applyShowFrame_fields _ _ _ _
  · rw [if_neg hse]
    cases tgt with
    | none => exact ⟨rfl, rfl⟩
    | some t =>
      cases hv : assocFind st.viewers t with
      | none => simp [hv]
      | some v =>
        cases hs : assocFind st.seriesData t with
        | none => simp [hv, hs]
        | some s => simp [hv, hs]

/-- Every event preserves "selection cleared while synced". -/
theorem simStep_preserves_inv (st : SimState) (e : SimEv)
    (h : st.syncEnabled = true → st.activeSeries = none) :
    (simStep st e).syncEnabled = true → (simStep st e).activeSeries = none := by
  cases e with
  | selectFiles files =>
    simp only [simStep]
    split_ifs with hemp
    · exact h
    · intro _; rfl
  | openFile name =>
    simp only [simStep]
    intro hs
    exact h hs
  | setSyncEnabled b =>
    cases b with
    | true => intro _; rfl
    | false =>
      simp only [simStep]
      intro hs
      exact absurd hs (by simp)
  | setSyncMode m =>
    simp only [simStep]
    split_ifs with hsync
    · cases m with
      | frame => intro hs; exact h hs
      | position => intro hs; exact h hs
    · intro hs; exact h hs
  | selectSeries name =>
    simp only [simStep]
    split_ifs with hsync
    · exact h
    · cases hv : assocFind st.viewers name with
      | some v =>
        simp only [hv]
        intro hs
        exact absurd hs (by simpa using hsync)
      | none =>
        simp only [hv]
        intro hs
        exact absurd hs (by simpa using hsync)
  | navNext al =>
    simp only [simStep]
    intro hs
    rw [(simNext_fields st al _).1]
    exact h (((simNext_fields st al _).2) ▸ hs)
  | navPrev al =>
    simp only [simStep]
    intro hs
    rw [(simPrev_fields st al _).1]
    exact h (((simPrev_fields st al _).2) ▸ hs)
  | slider i =>
    simp only [simStep]
    intro hs
    exact h hs
  | wheel now deltaY series =>
    simp only [simStep]
    cases hw : (handleWheelScroll ⟨st.lastWheelTime, st.wheelDelta⟩ now deltaY series).2 with
    | none =>
      simp only [hw]
      intro hs
      exact h hs
    | some nav =>
      obtain ⟨dir, t⟩ := nav
      cases dir with
      | nextDir =>
        simp only [hw]
        intro hs
        have hf := simNext_fields { st with
          lastWheelTime := (handleWheelScroll ⟨st.lastWheelTime, st.wheelDelta⟩
            now deltaY series).1.lastWheelTime,
          wheelDelta := (handleWheelScroll ⟨st.lastWheelTime, st.wheelDelta⟩
            now deltaY series).1.wheelDelta } true (some t)
        rw [hf.2] at hs
        rw [hf.1]
        exact h hs
      | prevDir =>
        simp only [hw]
        intro hs
        have hf := simPrev_fields { st with
          lastWheelTime := (handleWheelScroll ⟨st.lastWheelTime, st.wheelDelta⟩
            now deltaY series).1.lastWheelTime,
          wheelDelta := (handleWheelScroll ⟨st.lastWheelTime, st.wheelDelta⟩
            now deltaY series).1.wheelDelta } true (some t)
        rw [hf.2] at hs
        rw [hf.1]
        exact h hs

/-- In every reachable state, the active selection is cleared whenever
sync is enabled. -/
theorem runSim_inv (evs : List SimEv) :
    (runSim evs).syncEnabled = true → (runSim evs).activeSeries = none := by
  unfold runSim
  suffices h : ∀ st : SimState, (st.syncEnabled = true → st.activeSeries = none) →
      ((evs.foldl simStep st).syncEnabled = true
        → (evs.foldl simStep st).activeSeries = none) by
    exact h initSimState (fun _ => rfl)
  induction evs with
  | nil => intro st h; exact h
  | cons e es ih =>
    intro st h
    simp only [List.foldl_cons]
    exact ih _ (simStep_preserves_inv st e h)

/-- `showFrame` always stores the clamped index as the new global index
(with no target named, the unsynced branch also stores it). -/
theorem showFrameRun_fst (sd : List (String × SeriesData)) (pm : PositionMap)
    (se : Bool) (sm : SyncMode) (viewers : List (String × VState))
    (fi : Int) (al : Bool) :
    (showFrameRun sd pm se sm viewers fi al none).1
      = clampFrameIndex al ((pm.positions.length : Int)) fi := by
  cases se with
  | true => rfl
  | false => rfl

/-- Claim C9: enabling synchronization clears the active series selection
and recomputes the global frame index as the minimum `currentFrame`
across the bindings (the subsequent `showFrame` clamp is the identity on
an in-range minimum); consequently, in every reachable state with sync
enabled the active selection is `none` — a selection can only be set
while sync is disabled. -/
theorem claim9_enable_sync (st : SimState) (evs : List SimEv) (m0 : Int)
    (hmin : jsMinList (st.viewers.map (fun e => e.2.currentFrame)) = some m0)
    (h0 : 0 ≤ m0)
    (hlt : m0 < ((st.positionMap.positions.length : Int))) :
    (simStep st (SimEv.setSyncEnabled true)).activeSeries = none ∧
    (simStep st (SimEv.setSyncEnabled true)).currentFrameIndex = m0 ∧
    ((runSim evs).syncEnabled = true → (runSim evs).activeSeries = none) := by
  refine ⟨rfl, ?_, runSim_inv evs⟩
  have heq : (simStep st (SimEv.setSyncEnabled true)).currentFrameIndex
      = (showFrameRun st.seriesData st.positionMap true st.syncMode st.viewers
          ((jsMinList (st.viewers.map (fun e => e.2.currentFrame))).getD
            ((st.positionMap.positions.length : Int))) false none).1 := rfl
  rw [heq, showFrameRun_fst, hmin]
  simp only [Option.getD_some]
  unfold clampFrameIndex
  simp only [Bool.false_eq_true, if_false]
  omega

/-- A concrete unsynced state with one binding at frame 1 for the C9
witness. -/
def c9WitnessState : SimState :=
  { seriesData := c2WitnessSD
    positionMap := createPositionMap c2WitnessSD
    viewers := [("A", ⟨1, 5⟩)]
    currentFrameIndex := 1
    syncEnabled := false
    syncMode := SyncMode.frame
    activeSeries := some "A"
    lastWheelTime := 0
    wheelDelta := 0 }

/-- Witness for C9: enabling sync on the concrete state clears the
selection and lands on the binding minimum. -/
theorem claim9_enable_sync_witness :
    (simStep c9WitnessState (SimEv.setSyncEnabled true)).activeSeries = none ∧
    (simStep c9WitnessState (SimEv.setSyncEnabled true)).currentFrameIndex = 1 ∧
    ((runSim [SimEv.setSyncEnabled true]).syncEnabled = true →
      (runSim [SimEv.setSyncEnabled true]).activeSeries = none) :=
  claim9_enable_sync c9WitnessState [SimEv.setSyncEnabled true] 1 rfl
    (by decide) (by decide)
